import Mathlib

/-! Verification of the multi-brokerage trading core: a shallow embedding of
the shared precondition evaluator, the placement wrappers, the orchestrator
authentication lifecycle, the per-backend concurrency limiter and the balance
aggregation, together with theorems about them. -/

/-- Order side. The source passes the validated strings for buying and selling
(get_trade_action admits exactly those two values); we embed them as an
enumeration. -/
inductive Side
  | buy
  | sell
  deriving DecidableEq

/-- Model of one backend (BaseClient): its constructor fields together with the
answers its capability methods give during the run under consideration
(is_tradable, get_stock_holdings, get_account_balance are methods of the
client; holdings and balance return none when the venue could not report). The
account table is the insertion-ordered dict from index to account id. -/
structure Client where
  brokerage_name : String
  authenticated : Bool
  transaction_fee : ℚ
  delay : Bool
  concur_trades : Nat
  accounts : List (Nat × String)
  is_tradable : String → Bool
  get_stock_holdings : String → Option (List (String × ℚ))
  get_account_balance : String → Option ℚ

/-- BaseClient.has_position: the Python body returns the membership test when
the holdings dict is truthy and False otherwise, so both a missing snapshot
(None) and a confirmed-empty snapshot give False. -/
def has_position (c : Client) (account_id ticker : String) : Bool :=
  match c.get_stock_holdings account_id with
  | none => false
  | some holdings =>
      if holdings.isEmpty then false else holdings.any (fun h => h.1 == ticker)

/-- Tri-state reading of a holdings fetch, used to state the position rule:
held and notHeld arise from a fetched snapshot, unknown from a failed fetch. -/
inductive PosState
  | held
  | notHeld
  | unknown
  deriving DecidableEq

/-- Position state of a ticker in an account, derived from the same holdings
answer that has_position consumes. -/
def posState (c : Client) (account_id ticker : String) : PosState :=
  match c.get_stock_holdings account_id with
  | none => PosState.unknown
  | some holdings =>
      if holdings.any (fun h => h.1 == ticker) then PosState.held else PosState.notHeld

/-- Balance leg of the buy precondition, as in BaseClient.check_preconditions:
a missing balance fails closed, otherwise the balance must reach
price + transaction_fee + 0.2. -/
def buyBalanceOk (c : Client) (account_id : String) (price : ℚ) : Bool :=
  match c.get_account_balance account_id with
  | none => false
  | some account_balance =>
      if account_balance < price + c.transaction_fee + 0.2 then false else true

/-- BaseClient.check_preconditions. The source guards the two side checks with
a comparison of has_position against None, but has_position always returns a
bool, so that guard is always taken and the embedded checks run
unconditionally. The market-open oracle is a static external collaborator and
enters as the marketOpen argument. -/
def check_preconditions (c : Client) (marketOpen : Bool) (account_id ticker : String)
    (price : ℚ) (side : Side) : Bool :=
  if !c.authenticated then false
  else if !c.is_tradable ticker then false
  else if !marketOpen then false
  else if side == Side.buy && has_position c account_id ticker then false
  else if side == Side.sell && !(has_position c account_id ticker) then false
  else if side == Side.buy then buyBalanceOk c account_id price
  else true

lemma check_buy_eq (c : Client) (mo : Bool) (a t : String) (p : ℚ) :
    check_preconditions c mo a t p Side.buy =
      (c.authenticated && c.is_tradable t && mo &&
        !(has_position c a t) && buyBalanceOk c a p) := by
  unfold check_preconditions
  cases c.authenticated <;> cases c.is_tradable t <;> cases mo <;>
    cases hP : has_position c a t <;> simp [hP]

lemma check_sell_eq (c : Client) (mo : Bool) (a t : String) (p : ℚ) :
    check_preconditions c mo a t p Side.sell =
      (c.authenticated && c.is_tradable t && mo && has_position c a t) := by
  unfold check_preconditions
  cases c.authenticated <;> cases c.is_tradable t <;> cases mo <;>
    cases hP : has_position c a t <;> simp [hP]

lemma has_position_iff_held (c : Client) (a t : String) :
    has_position c a t = true ↔ posState c a t = PosState.held := by
  unfold has_position posState
  cases h : c.get_stock_holdings a with
  | none => simp
  | some holdings =>
      cases holdings with
      | nil => simp
      | cons x xs =>
          by_cases hyp : (x :: xs).any (fun q => q.1 == t) = true <;>
            simp [List.isEmpty, hyp]

/-- Claim C10: a sell passes the preconditions exactly when the backend is
authenticated, the ticker tradable, the market open and the position is
confirmed held; the account balance is never consulted, so replacing the
balance capability with any other leaves the sell outcome unchanged. -/
theorem sell_precondition_ignores_balance (c : Client) (mo : Bool) (a t : String)
    (p : ℚ) (g : String → Option ℚ) :
    check_preconditions c mo a t p Side.sell =
      (c.authenticated && c.is_tradable t && mo && has_position c a t)
    ∧ check_preconditions { c with get_account_balance := g } mo a t p Side.sell =
      check_preconditions c mo a t p Side.sell := by
  refine ⟨check_sell_eq c mo a t p, ?_⟩
  rw [check_sell_eq, check_sell_eq]
  rfl

/-- Claim C2: with the earlier checks passing, the position rule is tri-state:
a held ticker blocks a buy, a fetched snapshot without the ticker blocks a
sell, and an unfetchable snapshot blocks a sell while leaving the buy to be
decided by the balance check alone. -/
theorem position_rule_tristate (c : Client) (mo : Bool) (a t : String) (p : ℚ)
    (hA : c.authenticated = true) (hT : c.is_tradable t = true) (hM : mo = true) :
    (posState c a t = PosState.held →
      check_preconditions c mo a t p Side.buy = false)
    ∧ (posState c a t = PosState.notHeld →
      check_preconditions c mo a t p Side.sell = false)
    ∧ (posState c a t = PosState.unknown →
      check_preconditions c mo a t p Side.sell = false
      ∧ check_preconditions c mo a t p Side.buy = buyBalanceOk c a p) := by
  have hbuy := check_buy_eq c mo a t p
  have hsell := check_sell_eq c mo a t p
  refine ⟨?_, ?_, ?_⟩
  · intro hheld
    have hp : has_position c a t = true := (has_position_iff_held c a t).mpr hheld
    rw [hbuy, hA, hT, hM, hp]
    simp
  · intro hnot
    have hp : has_position c a t = false := by
      cases hcase : has_position c a t
      · rfl
      · exact absurd ((has_position_iff_held c a t).mp hcase) (by rw [hnot]; simp)
    rw [hsell, hA, hT, hM, hp]
    simp
  · intro hunk
    have hp : has_position c a t = false := by
      cases hcase : has_position c a t
      · rfl
      · exact absurd ((has_position_iff_held c a t).mp hcase) (by rw [hunk]; simp)
    constructor
    · rw [hsell, hA, hT, hM, hp]
      simp
    · rw [hbuy, hA, hT, hM, hp]
      simp

/-- Claim C3: with the earlier checks passing and the position rule passing, a
missing balance fails the buy closed, and a fetched balance passes exactly when
it reaches price + transaction_fee + 0.2, boundary included. -/
theorem buy_balance_boundary (c : Client) (mo : Bool) (a t : String) (p : ℚ)
    (hA : c.authenticated = true) (hT : c.is_tradable t = true) (hM : mo = true)
    (hP : has_position c a t = false) :
    (c.get_account_balance a = none →
      check_preconditions c mo a t p Side.buy = false)
    ∧ ∀ b : ℚ, c.get_account_balance a = some b →
      (check_preconditions c mo a t p Side.buy = true ↔
        p + c.transaction_fee + 0.2 ≤ b) := by
  subst hM
  have hbuy := check_buy_eq c true a t p
  rw [hA, hT, hP] at hbuy
  simp only [Bool.true_and, Bool.not_false] at hbuy
  constructor
  · intro hnone
    rw [hbuy]
    unfold buyBalanceOk
    rw [hnone]
  · intro b hb
    rw [hbuy]
    unfold buyBalanceOk
    rw [hb]
    by_cases hlt : b < p + c.transaction_fee + 0.2
    · simp [hlt]
    · simp [hlt]
      exact not_lt.mp hlt

/-- Trace events of one placement-wrapper call: the raw submission call and an
application of the trade-delay policy (get_trade_delay). -/
inductive TraceEvent
  | rawCall
  | delayCall
  deriving DecidableEq

/-- Observable run of one placement wrapper: its outcome, where an error value
models an uncaught exception escaping to the caller, together with the ordered
trace of raw-call and delay events. -/
structure PlacementRun where
  result : Except Unit Bool
  events : List TraceEvent

/-- BaseClient.place_buy_orders. The raw argument is the outcome the abstract
primitive _place_buy_orders produces for this account, ticker, price and order
type: ok of a bool when it returns, error when it raises. The body has no
exception handler, so a raising raw call ends the wrapper before the delay and
the error escapes; on a returned bool the delay runs after the raw call on both
branches. -/
def place_buy_orders (c : Client) (marketOpen : Bool) (account_id ticker : String)
    (price : ℚ) (raw : Except Unit Bool) : PlacementRun :=
  if !check_preconditions c marketOpen account_id ticker price Side.buy then
    { result := Except.ok false, events := [] }
  else
    match raw with
    | Except.error e => { result := Except.error e, events := [TraceEvent.rawCall] }
    | Except.ok true =>
        { result := Except.ok true, events := [TraceEvent.rawCall, TraceEvent.delayCall] }
    | Except.ok false =>
        { result := Except.ok false, events := [TraceEvent.rawCall, TraceEvent.delayCall] }

/-- BaseClient.place_sell_orders, identical to the buy wrapper except for the
side and the raw primitive. -/
def place_sell_orders (c : Client) (marketOpen : Bool) (account_id ticker : String)
    (price : ℚ) (raw : Except Unit Bool) : PlacementRun :=
  if !check_preconditions c marketOpen account_id ticker price Side.sell then
    { result := Except.ok false, events := [] }
  else
    match raw with
    | Except.error e => { result := Except.error e, events := [TraceEvent.rawCall] }
    | Except.ok true =>
        { result := Except.ok true, events := [TraceEvent.rawCall, TraceEvent.delayCall] }
    | Except.ok false =>
        { result := Except.ok false, events := [TraceEvent.rawCall, TraceEvent.delayCall] }

/-- Demo client passing every buy precondition: authenticated, everything
tradable, a fetched empty holdings snapshot and balance 6/5 with zero fee. -/
def clientBoundary : Client :=
  { brokerage_name := "Demo"
    authenticated := true
    transaction_fee := 0
    delay := false
    concur_trades := 1
    accounts := [(1, "A1"), (2, "A2"), (3, "A3")]
    is_tradable := fun _ => true
    get_stock_holdings := fun _ => some []
    get_account_balance := fun _ => some (6 / 5) }

/-- Variant of the demo client whose balance is 0.0001 below the buy
threshold. -/
def clientBelow : Client :=
  { clientBoundary with get_account_balance := fun _ => some (11999 / 10000) }

/-- Variant of the demo client whose holdings cannot be fetched. -/
def clientUnknownPos : Client :=
  { clientBoundary with get_stock_holdings := fun _ => none }

/-- Claim C2 witness: on a client whose holdings fetch fails, the sell
precondition is false and the buy precondition reduces to the balance check. -/
theorem position_rule_tristate_witness :
    check_preconditions clientUnknownPos true "A1" "XYZ" 5 Side.sell = false
    ∧ check_preconditions clientUnknownPos true "A1" "XYZ" 5 Side.buy =
      buyBalanceOk clientUnknownPos "A1" 5 :=
  (position_rule_tristate clientUnknownPos true "A1" "XYZ" 5 rfl rfl rfl).2.2 rfl

/-- Claim C3 witness: with price 1, fee 0, the boundary balance 1.2 passes the
buy precondition and the balance 1.1999 fails it. -/
theorem buy_balance_boundary_witness :
    check_preconditions clientBoundary true "A1" "XYZ" 1 Side.buy = true
    ∧ check_preconditions clientBelow true "A1" "XYZ" 1 Side.buy = false := by
  constructor
  · exact ((buy_balance_boundary clientBoundary true "A1" "XYZ" 1 rfl rfl rfl
      rfl).2 (6 / 5) rfl).mpr (by norm_num [clientBoundary])
  · have h := (buy_balance_boundary clientBelow true "A1" "XYZ" 1 rfl rfl rfl
      rfl).2 (11999 / 10000) rfl
    cases hc : check_preconditions clientBelow true "A1" "XYZ" 1 Side.buy
    · rfl
    · exact absurd (h.mp hc) (by norm_num [clientBelow, clientBoundary])

/-- Claim C1 counterexample: on a concrete client passing every precondition,
an exception raised inside the raw buy primitive escapes the shared wrapper
unchanged instead of being converted to a false outcome. -/
theorem placement_error_not_converted :
    (place_buy_orders clientBoundary true "A1" "XYZ" 1 (Except.error ())).result =
      Except.error ()
    ∧ (place_buy_orders clientBoundary true "A1" "XYZ" 1 (Except.error ())).result ≠
      Except.ok false := by
  have hC : check_preconditions clientBoundary true "A1" "XYZ" 1 Side.buy = true := by
    norm_num [check_preconditions, clientBoundary, has_position, buyBalanceOk]
    decide
  constructor
  · unfold place_buy_orders
    rw [hC]
    rfl
  · unfold place_buy_orders
    rw [hC]
    intro h
    exact Except.noConfusion h

/-- Claim C1 (amended): each shared wrapper returns false on precondition
failure and otherwise passes the raw primitive outcome through unchanged; in
particular a returned bool becomes the boolean result, while an exception in
the raw call propagates to the caller uncaught. -/
theorem placement_wrapper_passes_raw (c : Client) (mo : Bool) (a t : String)
    (p : ℚ) (raw : Except Unit Bool) :
    (place_buy_orders c mo a t p raw).result =
      (if check_preconditions c mo a t p Side.buy then raw else Except.ok false)
    ∧ (place_sell_orders c mo a t p raw).result =
      (if check_preconditions c mo a t p Side.sell then raw else Except.ok false) := by
  constructor
  · unfold place_buy_orders
    cases hC : check_preconditions c mo a t p Side.buy
    · simp
    · cases raw with
      | error e => simp
      | ok b => cases b <;> simp
  · unfold place_sell_orders
    cases hC : check_preconditions c mo a t p Side.sell
    · simp
    · cases raw with
      | error e => simp
      | ok b => cases b <;> simp

/-- Claim C9: whenever the raw primitive returns a bool, the trade delay runs
exactly once and after the raw call, on the success and on the failure branch
alike; when the preconditions fail, neither the raw call nor the delay runs. -/
theorem trade_delay_on_both_outcomes (c : Client) (mo : Bool) (a t : String)
    (p : ℚ) (b : Bool) :
    (place_buy_orders c mo a t p (Except.ok b)).events =
      (if check_preconditions c mo a t p Side.buy then
        [TraceEvent.rawCall, TraceEvent.delayCall] else [])
    ∧ (place_sell_orders c mo a t p (Except.ok b)).events =
      (if check_preconditions c mo a t p Side.sell then
        [TraceEvent.rawCall, TraceEvent.delayCall] else []) := by
  constructor
  · unfold place_buy_orders
    cases hC : check_preconditions c mo a t p Side.buy
    · simp
    · cases b <;> simp
  · unfold place_sell_orders
    cases hC : check_preconditions c mo a t p Side.sell
    · simp
    · cases b <;> simp

/-- Outcome of one attempt to call authenticate on a backend inside the
orchestrator loop: a true return, a false return, a 30s timeout, or an
unexpected exception (the latter three all make the loop continue without the
backend). -/
inductive AuthResult
  | authTrue
  | authFalse
  | timedOut
  | raisedError
  deriving DecidableEq

/-- Backend as the initialization loop of TradingApp sees it: its identity,
the outcome of its authenticate call, its populated account table, its balance
capability and whether the 15s verification window timed out. -/
structure AuthClient where
  id : Nat
  authResult : AuthResult
  accounts : List (Nat × String)
  get_account_balance : String → Option ℚ
  verifyTimedOut : Bool

/-- TradingApp._verify_account_access: false on timeout, false on an empty
account table, otherwise true exactly when the balance of the first account is
retrievable; every exception inside is caught and also gives false. -/
def verify_account_access (a : AuthClient) : Bool :=
  if a.verifyTimedOut then false
  else
    match a.accounts with
    | [] => false
    | first :: _ => (a.get_account_balance first.2).isSome

/-- A backend counts as fully successful when authenticate returned true and
verification passed. -/
def succeeded (a : AuthClient) : Bool :=
  match a.authResult with
  | AuthResult.authTrue => verify_account_access a
  | _ => false

/-- One iteration of the sequential authentication loop acting on the list of
authenticated client ids: a true authenticate appends the client, a subsequent
verification failure removes it again, every other outcome leaves the list
unchanged. -/
def initStep (acc : List Nat) (a : AuthClient) : List Nat :=
  match a.authResult with
  | AuthResult.authTrue =>
      if verify_account_access a then acc ++ [a.id] else (acc ++ [a.id]).erase a.id
  | _ => acc

/-- Mutable state of TradingApp relevant to initialization. -/
structure AppState where
  initialized : Bool
  authenticated_clients : List Nat

/-- Post-loop decision of TradingApp.initialize: zero authenticated clients
abort, a partial set asks the operator (continuing only on a yes answer), a
full set proceeds. -/
def authDecision (auth : List Nat) (total : Nat) (response : String) : Bool × AppState :=
  if auth = [] then (false, ⟨false, auth⟩)
  else if auth.length < total then
    if response.toLower == "yes" then (true, ⟨true, auth⟩)
    else (false, ⟨false, auth⟩)
  else (true, ⟨true, auth⟩)

/-- TradingApp.initialize: a no-op when already initialized, otherwise the
authenticated list is rebuilt by the sequential loop and the post-loop decision
is taken on it. -/
def initApp (clients : List AuthClient) (response : String) (st : AppState) :
    Bool × AppState :=
  if st.initialized then (true, st)
  else authDecision (clients.foldl initStep []) clients.length response

lemma foldl_initStep_eq :
    ∀ (clients : List AuthClient) (acc : List Nat),
      (∀ x ∈ acc, x ∉ clients.map AuthClient.id) →
      (clients.map AuthClient.id).Nodup →
      clients.foldl initStep acc = acc ++ (clients.filter succeeded).map AuthClient.id := by
  intro clients
  induction clients with
  | nil =>
      intro acc _ _
      simp
  | cons c cs ih =>
      intro acc hacc hnodup
      rw [List.map_cons, List.nodup_cons] at hnodup
      obtain ⟨hcid, hnd⟩ := hnodup
      have hacc2 : ∀ x ∈ acc, x ∉ cs.map AuthClient.id := by
        intro x hx
        have hcx := hacc x hx
        rw [List.map_cons] at hcx
        exact fun hmem => hcx (List.mem_cons_of_mem _ hmem)
      have hcacc : c.id ∉ acc := by
        intro hmem
        have hcx := hacc c.id hmem
        rw [List.map_cons] at hcx
        exact hcx (List.mem_cons_self _ _)
      rw [List.foldl_cons]
      cases hr : c.authResult with
      | authTrue =>
          have hsucc : succeeded c = verify_account_access c := by
            unfold succeeded
            rw [hr]
          cases hv : verify_account_access c
          · have hstep : initStep acc c = acc := by
              unfold initStep
              rw [hr, hv]
              simp only [Bool.false_eq_true, if_false]
              rw [List.erase_append_right _ hcacc, List.erase_cons_head,
                List.append_nil]
            rw [hstep, List.filter_cons_of_neg (by rw [hsucc, hv]; simp)]
            exact ih acc hacc2 hnd
          · have hstep : initStep acc c = acc ++ [c.id] := by
              unfold initStep
              rw [hr, hv]
              simp
            have hacc3 : ∀ x ∈ acc ++ [c.id], x ∉ cs.map AuthClient.id := by
              intro x hx
              rcases List.mem_append.mp hx with hx1 | hx2
              · exact hacc2 x hx1
              · rw [List.mem_singleton] at hx2
                rw [hx2]
                exact hcid
            rw [hstep, ih (acc ++ [c.id]) hacc3 hnd,
              List.filter_cons_of_pos (by rw [hsucc, hv]), List.map_cons,
              List.append_assoc, List.singleton_append]
      | authFalse =>
          have hstep : initStep acc c = acc := by
            unfold initStep
            rw [hr]
          rw [hstep, List.filter_cons_of_neg (by unfold succeeded; rw [hr]; simp)]
          exact ih acc hacc2 hnd
      | timedOut =>
          have hstep : initStep acc c = acc := by
            unfold initStep
            rw [hr]
          rw [hstep, List.filter_cons_of_neg (by unfold succeeded; rw [hr]; simp)]
          exact ih acc hacc2 hnd
      | raisedError =>
          have hstep : initStep acc c = acc := by
            unfold initStep
            rw [hr]
          rw [hstep, List.filter_cons_of_neg (by unfold succeeded; rw [hr]; simp)]
          exact ih acc hacc2 hnd

/-- Claim C4: on a fresh state with some but not all backends fully
successful, initialize returns true exactly on an operator yes answer, and the
authenticated list it leaves behind is exactly the successful backends in
order. -/
theorem initApp_degraded (clients : List AuthClient) (st : AppState) (resp : String)
    (hst : st.initialized = false)
    (hnodup : (clients.map AuthClient.id).Nodup)
    (hpos : 0 < (clients.filter succeeded).length)
    (hlt : (clients.filter succeeded).length < clients.length) :
    (initApp clients resp st).1 = (resp.toLower == "yes")
    ∧ (initApp clients resp st).2.authenticated_clients =
      (clients.filter succeeded).map AuthClient.id := by
  have hfold := foldl_initStep_eq clients [] (by simp) hnodup
  rw [List.nil_append] at hfold
  have hne : (clients.filter succeeded).map AuthClient.id ≠ [] := by
    intro hnil
    have := List.length_eq_zero.mpr hnil
    rw [List.length_map] at this
    omega
  have hlen : ((clients.filter succeeded).map AuthClient.id).length < clients.length := by
    rw [List.length_map]
    exact hlt
  unfold initApp
  rw [hst]
  simp only [Bool.false_eq_true, if_false]
  rw [hfold]
  unfold authDecision
  rw [if_neg hne, if_pos hlen]
  cases hyes : resp.toLower == "yes" <;> simp

/-- Claim C4 witness: with one fully successful and one failed backend on a
fresh state and a yes answer, initialize answers as the prompt does and the
authenticated list is exactly the successful backend. -/
theorem initApp_degraded_witness :
    (initApp [⟨1, AuthResult.authTrue, [(1, "B1")], fun _ => some 5, false⟩,
        ⟨2, AuthResult.authFalse, [], fun _ => none, false⟩] "yes" ⟨false, []⟩).1 =
      ("yes".toLower == "yes")
    ∧ (initApp [⟨1, AuthResult.authTrue, [(1, "B1")], fun _ => some 5, false⟩,
        ⟨2, AuthResult.authFalse, [], fun _ => none, false⟩] "yes" ⟨false, []⟩).2.authenticated_clients =
      ([⟨1, AuthResult.authTrue, [(1, "B1")], fun _ => some 5, false⟩,
        ⟨2, AuthResult.authFalse, [], fun _ => none, false⟩].filter succeeded).map AuthClient.id :=
  initApp_degraded _ ⟨false, []⟩ "yes" rfl (by decide) (by decide) (by decide)

lemma foldl_initStep_all_fail :
    ∀ (clients : List AuthClient),
      (∀ cl ∈ clients, succeeded cl = false) →
      clients.foldl initStep [] = [] := by
  intro clients
  induction clients with
  | nil =>
      intro _
      rfl
  | cons c cs ih =>
      intro hall
      have hc : succeeded c = false := hall c (List.mem_cons_self c cs)
      have hs : initStep [] c = [] := by
        cases hr : c.authResult with
        | authTrue =>
            have hv : verify_account_access c = false := by
              unfold succeeded at hc
              rw [hr] at hc
              exact hc
            unfold initStep
            rw [hr, hv]
            simp
        | authFalse =>
            unfold initStep
            rw [hr]
        | timedOut =>
            unfold initStep
            rw [hr]
        | raisedError =>
            unfold initStep
            rw [hr]
      rw [List.foldl_cons, hs]
      exact ih fun cl hcl => hall cl (List.mem_cons_of_mem c hcl)

/-- Claim C5: on a fresh state where no backend is fully successful,
initialize returns false and leaves the authenticated list empty. -/
theorem initApp_zero_success (clients : List AuthClient) (st : AppState) (resp : String)
    (hst : st.initialized = false)
    (hfail : ∀ cl ∈ clients, succeeded cl = false) :
    (initApp clients resp st).1 = false
    ∧ (initApp clients resp st).2.authenticated_clients = [] := by
  have hfold := foldl_initStep_all_fail clients hfail
  unfold initApp
  rw [hst]
  simp only [Bool.false_eq_true, if_false]
  rw [hfold]
  unfold authDecision
  simp

/-- Claim C5 witness: a single backend whose authenticate returns false makes
initialize fail with an empty authenticated list. -/
theorem initApp_zero_success_witness :
    (initApp [⟨2, AuthResult.authFalse, [], fun _ => none, false⟩] "yes" ⟨false, []⟩).1 = false
    ∧ (initApp [⟨2, AuthResult.authFalse, [], fun _ => none, false⟩] "yes"
        ⟨false, []⟩).2.authenticated_clients = [] :=
  initApp_zero_success _ ⟨false, []⟩ "yes" rfl (by decide)

/-- TradingApp.execute_client_trades, with outcome giving the boolean result
of the gated placement call for each account id: an empty account table short
circuits to (0, 0); otherwise one placement task is built per account table
value, their boolean results are gathered, and the pair of success count and
account count is returned. The second component records which account ids had
a placement call dispatched. -/
def execute_client_trades (c : Client) (outcome : String → Bool) :
    (Nat × Nat) × List String :=
  if c.accounts.isEmpty then ((0, 0), [])
  else
    ((((c.accounts.map Prod.snd).map outcome).count true, c.accounts.length),
      c.accounts.map Prod.snd)

/-- Claim C7: on a non-empty account table, exactly one placement call is
dispatched per account, and the returned pair is the number of placements
returning true together with the total number of accounts. -/
theorem execute_client_trades_fanout (c : Client) (outcome : String → Bool)
    (h : c.accounts ≠ []) :
    (execute_client_trades c outcome).2 = c.accounts.map Prod.snd
    ∧ (execute_client_trades c outcome).1 =
      (((c.accounts.map Prod.snd).map outcome).count true, c.accounts.length) := by
  have hne : c.accounts.isEmpty = false := by
    cases hc : c.accounts
    · exact absurd hc h
    · rfl
  unfold execute_client_trades
  rw [hne]
  simp

/-- Claim C7 witness: three accounts of which two placements succeed and one
is blocked give one call per account and the pair (2, 3). -/
theorem execute_client_trades_fanout_witness :
    (execute_client_trades clientBoundary (fun s => !(s == "A3"))).2 =
      clientBoundary.accounts.map Prod.snd
    ∧ (execute_client_trades clientBoundary (fun s => !(s == "A3"))).1 =
      (((clientBoundary.accounts.map Prod.snd).map (fun s => !(s == "A3"))).count true,
        clientBoundary.accounts.length)
    ∧ (execute_client_trades clientBoundary (fun s => !(s == "A3"))).1 = (2, 3) := by
  have h := execute_client_trades_fanout clientBoundary (fun s => !(s == "A3"))
    (by decide)
  exact ⟨h.1, h.2, by decide⟩

/-- Phase of one per-account placement task with respect to the semaphore
created in execute_client_trades: not yet entered, holding a permit with the
placement call in flight, or finished. -/
inductive TaskPhase
  | waiting
  | inFlight
  | finished
  deriving DecidableEq

/-- Number of placement calls currently in flight. -/
def inFlightCount (ts : List TaskPhase) : Nat := ts.count TaskPhase.inFlight

/-- Small-step semantics of the semaphore of capacity cap gating the per
account tasks: a waiting task may enter only while fewer than cap placements
are in flight (acquire), and an in-flight task may finish at any time
(release). -/
inductive SemStep (cap : Nat) : List TaskPhase → List TaskPhase → Prop
  | start (ts : List TaskPhase) (i : Nat) (hi : i < ts.length)
      (hw : ts.get ⟨i, hi⟩ = TaskPhase.waiting)
      (hcap : inFlightCount ts < cap) :
      SemStep cap ts (ts.set i TaskPhase.inFlight)
  | finish (ts : List TaskPhase) (i : Nat) (hi : i < ts.length)
      (hf : ts.get ⟨i, hi⟩ = TaskPhase.inFlight) :
      SemStep cap ts (ts.set i TaskPhase.finished)

lemma count_set_incr {α : Type} [DecidableEq α] :
    ∀ (l : List α) (i : Nat) (hi : i < l.length) (x : α),
      l.get ⟨i, hi⟩ ≠ x → (l.set i x).count x = l.count x + 1 := by
  intro l
  induction l with
  | nil =>
      intro i hi x _
      simp at hi
  | cons a as ih =>
      intro i hi x hne
      cases i with
      | zero =>
          have ha : a ≠ x := hne
          show (x :: as).count x = (a :: as).count x + 1
          rw [List.count_cons_self, List.count_cons_of_ne (Ne.symm ha)]
      | succ j =>
          have hj : j < as.length := by simpa using hi
          show (a :: as.set j x).count x = (a :: as).count x + 1
          rw [List.count_cons, List.count_cons, ih j hj x hne]
          omega

lemma count_set_decr {α : Type} [DecidableEq α] :
    ∀ (l : List α) (i : Nat) (hi : i < l.length) (x v : α),
      l.get ⟨i, hi⟩ = x → v ≠ x →
      (l.set i v).count x + 1 = l.count x := by
  intro l
  induction l with
  | nil =>
      intro i hi x v _ _
      simp at hi
  | cons a as ih =>
      intro i hi x v heq hv
      cases i with
      | zero =>
          have ha : a = x := heq
          subst ha
          show (v :: as).count a + 1 = (a :: as).count a
          rw [List.count_cons_of_ne (Ne.symm hv), List.count_cons_self]
      | succ j =>
          have hj : j < as.length := by simpa using hi
          show (a :: as.set j v).count x + 1 = (a :: as).count x
          rw [List.count_cons, List.count_cons]
          have hh := ih j hj x v heq hv
          omega

lemma semStep_preserves {cap : Nat} {ts ts2 : List TaskPhase}
    (hstep : SemStep cap ts ts2) (hinv : inFlightCount ts ≤ cap) :
    inFlightCount ts2 ≤ cap := by
  cases hstep with
  | start i hi hw hcap =>
      have h := count_set_incr ts i hi TaskPhase.inFlight
        (by rw [hw]; intro hh; exact TaskPhase.noConfusion hh)
      unfold inFlightCount at *
      omega
  | finish i hi hf =>
      have h := count_set_decr ts i hi TaskPhase.inFlight TaskPhase.finished hf
        (by intro hh; exact TaskPhase.noConfusion hh)
      unfold inFlightCount at *
      omega

/-- Claim C6: starting from all per-account tasks waiting, every state
reachable under the semaphore discipline of execute_client_trades has at most
concur_trades placement calls in flight. -/
theorem semaphore_bounds_in_flight (c : Client) (ts : List TaskPhase)
    (h : Relation.ReflTransGen (SemStep c.concur_trades)
      (List.replicate c.accounts.length TaskPhase.waiting) ts) :
    inFlightCount ts ≤ c.concur_trades := by
  induction h with
  | refl =>
      unfold inFlightCount
      rw [List.count_replicate]
      simp
  | tail hsteps hstep ih => exact semStep_preserves hstep ih

/-- Client with two accounts and a concurrency cap of one, exercising the
semaphore model. -/
def clientSem : Client :=
  { clientBoundary with concur_trades := 1, accounts := [(1, "A1"), (2, "A2")] }

/-- Claim C6 witness: after one task of the two-account client enters, the in
flight count of the reached state is within the cap of one. -/
theorem semaphore_bounds_in_flight_witness :
    inFlightCount ((List.replicate clientSem.accounts.length TaskPhase.waiting).set 0
      TaskPhase.inFlight) ≤ clientSem.concur_trades :=
  semaphore_bounds_in_flight clientSem _
    (Relation.ReflTransGen.single
      (SemStep.start (List.replicate clientSem.accounts.length TaskPhase.waiting) 0
        (by decide) (by decide) (by decide)))

/-- Python truthiness coercion applied to a fetched balance in
get_all_account_balances: None becomes 0.0, a zero balance stays 0.0, any
other value passes through. -/
def pyOrZero (b : Option ℚ) : ℚ :=
  match b with
  | none => 0
  | some v => if v = 0 then 0 else v

/-- Per-backend subtotal of get_all_account_balances: the running addition
over the balances of all accounts of the backend, with unreportable balances
coerced to zero. -/
def backend_subtotal (c : Client) : ℚ :=
  (c.accounts.map (fun a => pyOrZero (c.get_account_balance a.2))).foldl
    (fun s b => s + b) 0

/-- One iteration of the backend loop of get_all_account_balances: a backend
without accounts is skipped entirely, otherwise its subtotal is recorded and
added to the grand total. -/
def aggStep (acc : List (String × ℚ) × ℚ) (c : Client) : List (String × ℚ) × ℚ :=
  if c.accounts.isEmpty then acc
  else (acc.1 ++ [(c.brokerage_name, backend_subtotal c)], acc.2 + backend_subtotal c)

/-- TradingApp.get_all_account_balances: the recorded per-backend totals in
order together with the grand total. -/
def get_all_account_balances (clients : List Client) : List (String × ℚ) × ℚ :=
  clients.foldl aggStep ([], 0)

lemma foldl_aggStep_eq :
    ∀ (clients : List Client) (acc : List (String × ℚ) × ℚ),
      clients.foldl aggStep acc =
        (acc.1 ++ (clients.filter (fun c => !c.accounts.isEmpty)).map
            (fun c => (c.brokerage_name, backend_subtotal c)),
          acc.2 + ((clients.filter (fun c => !c.accounts.isEmpty)).map
            (fun c => backend_subtotal c)).sum) := by
  intro clients
  induction clients with
  | nil =>
      intro acc
      simp
  | cons c cs ih =>
      intro acc
      rw [List.foldl_cons]
      cases hE : c.accounts.isEmpty
      · have hstep : aggStep acc c =
            (acc.1 ++ [(c.brokerage_name, backend_subtotal c)],
              acc.2 + backend_subtotal c) := by
          unfold aggStep
          rw [hE]
          simp
        rw [hstep, ih, List.filter_cons_of_pos (by rw [hE]; rfl)]
        simp [add_assoc]
      · have hstep : aggStep acc c = acc := by
          unfold aggStep
          rw [hE]
          simp
        rw [hstep, ih, List.filter_cons_of_neg (by rw [hE]; simp)]

/-- Client with three accounts whose balances are 100, unreportable, and 50. -/
def clientAgg : Client :=
  { clientBoundary with
      accounts := [(1, "a"), (2, "b"), (3, "c")]
      get_account_balance := fun a =>
        if a = "b" then none else if a = "a" then some 100 else some 50 }

/-- Claim C8: the recorded per-backend totals are exactly one subtotal per
backend with a non-empty account table, each subtotal adds the per-account
balances with unreportable ones as zero, the grand total is the sum of the
recorded subtotals, and the demo balances 100, None, 50 give subtotal 150. -/
theorem balance_aggregation (clients : List Client) :
    (get_all_account_balances clients).1 =
      (clients.filter (fun c => !c.accounts.isEmpty)).map
        (fun c => (c.brokerage_name, backend_subtotal c))
    ∧ (get_all_account_balances clients).2 =
      ((get_all_account_balances clients).1.map Prod.snd).sum
    ∧ (∀ c : Client, backend_subtotal c =
        (c.accounts.map (fun a => (c.get_account_balance a.2).getD 0)).sum)
    ∧ backend_subtotal clientAgg = 150 := by
  have hfold := foldl_aggStep_eq clients ([], 0)
  unfold get_all_account_balances
  rw [hfold]
  refine ⟨by simp, ?_, ?_, ?_⟩
  · simp only [List.nil_append, List.map_map, zero_add]
    rfl
  · intro c
    unfold backend_subtotal
    have hfun : (fun a : Nat × String => pyOrZero (c.get_account_balance a.2)) =
        fun a : Nat × String => (c.get_account_balance a.2).getD 0 := by
      funext a
      unfold pyOrZero
      cases c.get_account_balance a.2 with
      | none => rfl
      | some v =>
          by_cases hv : v = 0
          · simp [hv]
          · simp [hv]
    rw [hfun, List.sum_eq_foldl]
  · norm_num [backend_subtotal, clientAgg, clientBoundary, pyOrZero]
    rw [if_neg (show ¬("a" : String) = "b" by decide),
      if_neg (show ¬("c" : String) = "b" by decide),
      if_neg (show ¬("c" : String) = "a" by decide)]
    norm_num
